import Mathlib

/-!
Verification of the social-graph / feed core of the `university_community_blog`
Flask application (`app/models.py`, `app/routes.py`).

The SQLAlchemy tables are embedded as lists kept in row-insertion (rowid)
order; primary-key assignment is modelled by explicit per-table counters.
Each Flask route that mutates or queries this core is embedded as a pure
function from a `Store` (the database state plus the acting session user)
to an `Except Err` result.  Errors model the route's non-success responses:
`unauthenticated` the login redirect / 401 JSON, `notFound` a
`get_or_404` miss, `forbidden` the permission-denied flash,
`validationError` the empty-field flash, `integrityError` a constraint
violation raised by the database at flush time, and `internalError` an
uncaught Python exception (e.g. an attribute access on `None`).
-/

namespace Blog

/-- Row of the `user` table (`models.User`): id, unique username. -/
structure UserR where
  id : Nat
  username : String
deriving DecidableEq, Repr

/-- Row of the `post` table (`models.Post`): id, title, content, creation
timestamp (`date_posted`, modelled as a Nat), author id and the denormalized
`upvotes` counter column. -/
structure PostR where
  id : Nat
  title : String
  content : String
  datePosted : Nat
  authorId : Nat
  upvotes : Nat
deriving DecidableEq, Repr

/-- Row of the `comment` table (`models.Comment`). -/
structure CommentR where
  id : Nat
  body : String
  userId : Nat
  postId : Nat
deriving DecidableEq, Repr

/-- Row of the `tag` table (`models.Tag`): id and (unique) name. -/
structure TagR where
  id : Nat
  name : String
deriving DecidableEq, Repr

/-- The relational store: one list per table, in rowid (insertion) order,
with fresh-id counters for the autoincrement primary keys.
`post_tags` holds `(post_id, tag_id)`, `post_upvotes` holds
`(user_id, post_id)`, `bookmark` holds `(user_id, post_id)` and
`followers_assoc` holds `(follower_id, followed_id)`; the composite keys of
these association tables make each pair occur at most once in any state the
application can reach. -/
structure Store where
  users : List UserR
  posts : List PostR
  comments : List CommentR
  tags : List TagR
  post_tags : List (Nat × Nat)
  post_upvotes : List (Nat × Nat)
  bookmark : List (Nat × Nat)
  followers_assoc : List (Nat × Nat)
  nextUserId : Nat
  nextPostId : Nat
  nextCommentId : Nat
  nextTagId : Nat
deriving DecidableEq, Repr

/-- The empty database right after `db.create_all()`. -/
def Store.empty : Store :=
  ⟨[], [], [], [], [], [], [], [], 1, 1, 1, 1⟩

/-- Failure kinds observable from the routes (see the module docstring). -/
inductive Err where
  | notFound
  | forbidden
  | unauthenticated
  | validationError
  | integrityError
  | internalError
deriving DecidableEq, Repr

/-- `User.query.get(uid)`. -/
def getUser (s : Store) (uid : Nat) : Option UserR :=
  s.users.find? (fun u => u.id == uid)

/-- `Post.query.get(pid)`. -/
def getPost (s : Store) (pid : Nat) : Option PostR :=
  s.posts.find? (fun p => p.id == pid)

/-- `User.has_liked(post)`: `self.liked_posts.filter_by(id=post.id).count() > 0`,
i.e. membership of the `(user, post)` pair in `post_upvotes`. -/
def has_liked (s : Store) (uid pid : Nat) : Bool :=
  s.post_upvotes.contains (uid, pid)

/-- `User.has_bookmarked(post)`: membership in the `bookmark` table. -/
def has_bookmarked (s : Store) (uid pid : Nat) : Bool :=
  s.bookmark.contains (uid, pid)

/-- `post.liked_by.count()`: number of `post_upvotes` rows for the post. -/
def liked_by_count (s : Store) (pid : Nat) : Nat :=
  s.post_upvotes.countP (fun e => e.2 == pid)

/-- `User.followers_count`: count of `followers_assoc` rows with this user on
the followed side. -/
def followers_count (s : Store) (uid : Nat) : Nat :=
  s.followers_assoc.countP (fun e => e.2 == uid)

/-- `User.following_count`: count of `followers_assoc` rows with this user on
the follower side. -/
def following_count (s : Store) (uid : Nat) : Nat :=
  s.followers_assoc.countP (fun e => e.1 == uid)

/-- `User.is_following(user)`: an edge `(self, user)` exists. -/
def is_following (s : Store) (a b : Nat) : Bool :=
  s.followers_assoc.contains (a, b)

/-- Helper for `routes.get_default_user`: `User.query.first()` returns the
row with the smallest rowid, i.e. the head of the insertion-ordered list. -/
def first_user (s : Store) : Option UserR :=
  s.users.head?

/-- `routes.get_default_user`: the first user, or a freshly created
`faculty_admin` demo user when the `user` table is empty. -/
def get_default_user (s : Store) : Store × UserR :=
  match s.users.head? with
  | some u => (s, u)
  | none =>
      let u : UserR := ⟨s.nextUserId, "faculty_admin"⟩
      ({ s with users := s.users ++ [u], nextUserId := s.nextUserId + 1 }, u)

/-- `routes.upvote_post` (`POST /post/<id>/upvote`): toggles the
`(user, post)` row of `post_upvotes`, recomputes the count from the edge
set (`post.liked_by.count()`), writes it into the legacy `upvotes` column
and returns `(liked, upvotes)` as reported in the JSON response, where
`liked` is re-queried via `has_liked` after the mutation. -/
def upvote_post (s : Store) (sess : Option Nat) (pid : Nat) :
    Except Err (Store × Bool × Nat) :=
  match sess with
  | none => .error .unauthenticated
  | some uid =>
      match getPost s pid with
      | none => .error .notFound
      | some _ =>
          match getUser s uid with
          | none => .error .internalError
          | some u =>
              let edges :=
                if has_liked s u.id pid then
                  s.post_upvotes.filter (fun e => !(e == (u.id, pid)))
                else
                  s.post_upvotes ++ [(u.id, pid)]
              let s1 := { s with post_upvotes := edges }
              let count := liked_by_count s1 pid
              let s2 := { s1 with
                posts := s1.posts.map
                  (fun p => if p.id == pid then { p with upvotes := count } else p) }
              .ok (s2, has_liked s2 u.id pid, count)

/-- `routes.toggle_bookmark` (`POST /post/<id>/bookmark`). -/
def toggle_bookmark (s : Store) (sess : Option Nat) (pid : Nat) :
    Except Err (Store × Bool) :=
  match sess with
  | none => .error .unauthenticated
  | some uid =>
      match getUser s uid with
      | none => .error .unauthenticated
      | some u =>
          match getPost s pid with
          | none => .error .notFound
          | some _ =>
              if has_bookmarked s u.id pid then
                .ok ({ s with bookmark := s.bookmark.filter (fun e => !(e == (u.id, pid))) }, false)
              else
                .ok ({ s with bookmark := s.bookmark ++ [(u.id, pid)] }, true)

/-- `routes.follow` (`POST /follow/<id>`): inserts a `followers_assoc`
edge unless the target is the acting user itself or the edge already
exists. -/
def follow (s : Store) (sess : Option Nat) (targetId : Nat) : Except Err Store :=
  match sess with
  | none => .error .unauthenticated
  | some uid =>
      match getUser s targetId with
      | none => .error .notFound
      | some user =>
          match getUser s uid with
          | none => .error .internalError
          | some cu =>
              if user.id ≠ cu.id ∧ ¬ is_following s cu.id user.id then
                .ok { s with followers_assoc := s.followers_assoc ++ [(cu.id, user.id)] }
              else
                .ok s

/-- `routes.unfollow` (`POST /unfollow/<id>`): deletes the first matching
`followers_assoc` row if present, otherwise does nothing. -/
def unfollow (s : Store) (sess : Option Nat) (targetId : Nat) : Except Err Store :=
  match sess with
  | none => .error .unauthenticated
  | some uid =>
      match getUser s targetId with
      | none => .error .notFound
      | some user =>
          match getUser s uid with
          | none => .error .internalError
          | some cu =>
              .ok { s with followers_assoc := s.followers_assoc.erase (cu.id, user.id) }

/-- Tag handling inside `routes.new_post`: for one name, look the tag up by
exact (case-sensitive) name, create it if absent, and associate it with the
post unless the association already exists.  Thanks to autoflush a tag
created earlier in the same request is visible to the lookup, which the
immediate insertion into `s.tags` mirrors. -/
def addTag (s : Store) (pid : Nat) (tn : String) : Store :=
  let found := s.tags.find? (fun t => t.name == tn)
  let p : Store × Nat := match found with
    | some tag => (s, tag.id)
    | none =>
        ({ s with
            tags := s.tags ++ [⟨s.nextTagId, tn⟩],
            nextTagId := s.nextTagId + 1 },
         s.nextTagId)
  if p.1.post_tags.contains (pid, p.2) then p.1
  else { p.1 with post_tags := p.1.post_tags ++ [(pid, p.2)] }

/-- The tag loop of `routes.new_post`, over the already-split name list. -/
def addTags (s : Store) (pid : Nat) (tns : List String) : Store :=
  tns.foldl (fun acc tn => addTag acc pid tn) s

/-- Python `str.strip()`: drop leading and trailing whitespace. -/
def pyStrip (s : String) : String :=
  ⟨((s.data.dropWhile Char.isWhitespace).reverse.dropWhile Char.isWhitespace).reverse⟩

/-- Python `str.split(',')`: split at every comma, keeping empty pieces. -/
def pySplitComma : List Char → List (List Char)
  | [] => [[]]
  | c :: cs =>
      match pySplitComma cs with
      | [] => [[c]]
      | g :: gs => if c = ',' then [] :: g :: gs else (c :: g) :: gs

/-- `[t.strip() for t in tags_raw.split(',') if t.strip()]`. -/
def parseTags (raw : String) : List String :=
  ((pySplitComma raw.data).map (fun g => pyStrip ⟨g⟩)).filter (fun t => t ≠ "")

/-- `routes.new_post` (`POST /post/new`), thumbnail upload omitted (file
I/O, excluded from scope; `thumbnail` stays `None`).  Returns the new
post's id along with the updated store. -/
def new_post (s : Store) (sess : Option Nat) (title content tags_raw : String)
    (now : Nat) : Except Err (Store × Nat) :=
  match sess.bind (getUser s) with
  | none => .error .unauthenticated
  | some cu =>
      let title := pyStrip title
      let content := pyStrip content
      if title = "" ∨ content = "" then .error .validationError
      else
        let pid := s.nextPostId
        let post : PostR := ⟨pid, title, content, now, cu.id, 0⟩
        let s1 := { s with posts := s.posts ++ [post], nextPostId := pid + 1 }
        .ok (addTags s1 pid (parseTags tags_raw), pid)

/-- Comment branch of `routes.post_detail` (`POST /post/<id>`): the comment
author is `get_default_user()` — the session user is never consulted. -/
def post_detail_comment (s : Store) (pid : Nat) (body : String) :
    Except Err (Store × CommentR) :=
  match getPost s pid with
  | none => .error .notFound
  | some _ =>
      let b := pyStrip body
      if b = "" then .error .validationError
      else
        let du := get_default_user s
        let c : CommentR := ⟨du.1.nextCommentId, b, du.2.id, pid⟩
        .ok ({ du.1 with
                comments := du.1.comments ++ [c],
                nextCommentId := du.1.nextCommentId + 1 }, c)

/-- `routes.register` (`POST /register`): rejects a taken username (the
email column, irrelevant to every claim here, is folded into the username)
and otherwise appends a user row with a fresh id.  The uniqueness conflict
is reported as `integrityError`. -/
def register (s : Store) (username : String) : Except Err Store :=
  if s.users.any (fun u => u.username == username) then .error .integrityError
  else
    .ok { s with
      users := s.users ++ [⟨s.nextUserId, username⟩],
      nextUserId := s.nextUserId + 1 }

/-- `routes.delete_post` (`POST /post/<id>/delete`).  `db.session.delete(post)`
makes SQLAlchemy delete the association rows of the `post_tags`,
`post_upvotes` and `bookmark` secondary tables that reference the post, but
the `Post.comments` relationship carries no delete cascade: the unit of work
instead tries to null out `comment.post_id`, a NOT NULL column, so the flush
raises `IntegrityError` and nothing is applied whenever the post has
comments.  When the requester is not the author the route flashes a
permission error; if additionally no session user exists, building the
redirect dereferences `current_user.id` on `None` and the request dies with
an `AttributeError` (`internalError`). -/
def delete_post (s : Store) (sess : Option Nat) (pid : Nat) : Except Err Store :=
  match getPost s pid with
  | none => .error .notFound
  | some p =>
      let cu := sess.bind (getUser s)
      if cu.map (fun u => u.id) = some p.authorId then
        if s.comments.any (fun c => c.postId == pid) then .error .integrityError
        else
          .ok { s with
            posts := s.posts.filter (fun q => q.id ≠ pid),
            post_tags := s.post_tags.filter (fun e => e.1 ≠ pid),
            post_upvotes := s.post_upvotes.filter (fun e => e.2 ≠ pid),
            bookmark := s.bookmark.filter (fun e => e.2 ≠ pid) }
      else
        match cu with
        | none => .error .internalError
        | some _ => .error .forbidden

/-! SQLite `LIKE` semantics, used by the search branch of the feed:
`ilike('%q%')` is a case-insensitive pattern match in which `%` in the
query matches any character sequence and `_` any single character. -/

/-- ASCII case folding, as applied by SQLite's case-insensitive `LIKE`. -/
def asciiLower (c : Char) : Char :=
  if 65 ≤ c.toNat ∧ c.toNat ≤ 90 then Char.ofNat (c.toNat + 32) else c

/-- Case folding over a character list. -/
def lowerL (l : List Char) : List Char :=
  l.map asciiLower

/-- Helper for `%`: try the continuation on the text and on every shorter
suffix of it. -/
def scanSuffixes (f : List Char → Bool) : List Char → Bool
  | [] => f []
  | d :: ts => f (d :: ts) || scanSuffixes f ts

/-- SQLite `LIKE` pattern matching on case-folded characters: `%` matches
any sequence, `_` any single character, anything else itself. -/
def likeMatch : List Char → (List Char → Bool)
  | [] => fun t => t.isEmpty
  | p :: ps =>
      let rest := likeMatch ps
      fun t =>
        if p = '%' then scanSuffixes rest t
        else
          match t with
          | [] => false
          | d :: ts => (if p = '_' then true else p == d) && rest ts

/-- `column.ilike(f'%{q}%')`: the pattern is the query wrapped in `%`,
matched case-insensitively against the column text. -/
def ilikeSub (q t : String) : Bool :=
  likeMatch (lowerL (("%" ++ q ++ "%").data)) (lowerL t.data)

/-- Membership of a post in the feed's tag branch:
`Post.query.join(Post.tags).filter(Tag.name == name)`. -/
def hasTagNamed (s : Store) (p : PostR) (name : String) : Bool :=
  s.tags.any (fun t => t.name == name && s.post_tags.contains (p.id, t.id))

/-- One sorting step of `ORDER BY date_posted DESC`: insert a row into an
already ordered prefix, after every row of greater-or-equal timestamp. -/
def insertD (p : PostR) : List PostR → List PostR
  | [] => [p]
  | q :: qs => if q.datePosted < p.datePosted then p :: q :: qs else q :: insertD p qs

/-- `ORDER BY date_posted DESC` over the rowid-ordered table: rows are
scanned in insertion order and placed by timestamp only, so rows with equal
timestamps stay in scan order (ascending id). -/
def orderByDateDesc (l : List PostR) : List PostR :=
  l.foldl (fun acc p => insertD p acc) []

/-- `request.args.get(name)` truthiness: a missing or empty parameter is
falsy in the route's `if` chain. -/
def argVal : Option String → Option String
  | some "" => none
  | o => o

/-- `routes.index` (`GET /`): feed composition.  The branches are tried in
the source's order: search query, tag, topic, `feed=following` (login
required), and the default discover feed.  Every branch applies the same
`ORDER BY date_posted DESC`. -/
def index (s : Store) (sess : Option Nat) (qArg tagArg topicArg : Option String)
    (feed : String) : Except Err (List PostR) :=
  match argVal qArg with
  | some q =>
      .ok (orderByDateDesc (s.posts.filter
        (fun p => ilikeSub q p.title || ilikeSub q p.content)))
  | none =>
      match argVal tagArg with
      | some tq => .ok (orderByDateDesc (s.posts.filter (fun p => hasTagNamed s p tq)))
      | none =>
          match argVal topicArg with
          | some tq => .ok (orderByDateDesc (s.posts.filter (fun p => hasTagNamed s p tq)))
          | none =>
              if feed = "following" then
                match sess with
                | none => .error .unauthenticated
                | some uid =>
                    match getUser s uid with
                    | none => .error .internalError
                    | some cu =>
                        .ok (orderByDateDesc (s.posts.filter
                          (fun p => s.followers_assoc.contains (cu.id, p.authorId))))
              else
                .ok (orderByDateDesc s.posts)

/-- One request against the application: each constructor is one of the
mutating routes, carrying the acting session user where the route reads
one. -/
inductive Op where
  | register (username : String)
  | newPost (sess : Option Nat) (title content tags_raw : String) (now : Nat)
  | comment (pid : Nat) (body : String)
  | upvote (sess : Option Nat) (pid : Nat)
  | bookmarkToggle (sess : Option Nat) (pid : Nat)
  | follow (sess : Option Nat) (target : Nat)
  | unfollow (sess : Option Nat) (target : Nat)
  | deletePost (sess : Option Nat) (pid : Nat)

/-- Result of one request: the new store on success; on any failure the
transaction is not committed and the store is unchanged. -/
def applyOp (s : Store) : Op → Store
  | .register un =>
      match register s un with | .ok s' => s' | .error _ => s
  | .newPost sess t c tr now =>
      match new_post s sess t c tr now with | .ok r => r.1 | .error _ => s
  | .comment pid b =>
      match post_detail_comment s pid b with | .ok r => r.1 | .error _ => s
  | .upvote sess pid =>
      match upvote_post s sess pid with | .ok r => r.1 | .error _ => s
  | .bookmarkToggle sess pid =>
      match toggle_bookmark s sess pid with | .ok r => r.1 | .error _ => s
  | .follow sess t =>
      match follow s sess t with | .ok s' => s' | .error _ => s
  | .unfollow sess t =>
      match unfollow s sess t with | .ok s' => s' | .error _ => s
  | .deletePost sess pid =>
      match delete_post s sess pid with | .ok s' => s' | .error _ => s

/-- Run a request sequence from a start state. -/
def runOps (s : Store) (ops : List Op) : Store :=
  ops.foldl applyOp s

/-- The follow graph contains no self-edge. -/
def noSelfEdge (s : Store) : Prop :=
  ∀ e ∈ s.followers_assoc, e.1 ≠ e.2

instance (s : Store) : Decidable (noSelfEdge s) :=
  inferInstanceAs (Decidable (∀ e ∈ s.followers_assoc, e.1 ≠ e.2))

/-- Tag names are pairwise distinct. -/
def tagNamesUnique (s : Store) : Prop :=
  s.tags.Pairwise (fun a b => a.name ≠ b.name)

/-- Case-insensitive substring containment, the specification-side notion:
the case-folded needle occurs contiguously inside the case-folded haystack. -/
def occursCI (needle hay : String) : Prop :=
  ∃ l r, lowerL hay.data = l ++ (lowerL needle.data ++ r)

/-- Executable substring scan on character lists. -/
def subB (q : List Char) : List Char → Bool
  | [] => q.isPrefixOf []
  | d :: ts => q.isPrefixOf (d :: ts) || subB q ts

/-- Executable case-insensitive substring containment. -/
def containsCI (needle hay : String) : Bool :=
  subB (lowerL needle.data) (lowerL hay.data)

/-- The query holds no `LIKE` metacharacter. -/
def noWildL (l : List Char) : Bool :=
  l.all (fun c => !(c == '%') && !(c == '_'))

/-- Feed order actually implemented: creation timestamp descending, ties in
rowid (insertion) order, i.e. ascending id. -/
def feedOrder (a b : PostR) : Prop :=
  b.datePosted < a.datePosted ∨ (b.datePosted = a.datePosted ∧ a.id < b.id)

/-- Feed order written in the specification: creation timestamp descending,
ties by id descending. -/
def specFeedOrder (a b : PostR) : Prop :=
  b.datePosted < a.datePosted ∨ (b.datePosted = a.datePosted ∧ b.id < a.id)

instance (a b : PostR) : Decidable (feedOrder a b) :=
  inferInstanceAs (Decidable (_ ∨ _))

instance (a b : PostR) : Decidable (specFeedOrder a b) :=
  inferInstanceAs (Decidable (_ ∨ _))

/-! ### List helper lemmas -/

theorem count_le_countP {α : Type} [BEq α] [LawfulBEq α] (pr : α → Bool) (x : α)
    (hx : pr x = true) : ∀ l : List α, l.count x ≤ l.countP pr := by
  intro l
  induction l with
  | nil => simp
  | cons y t ih =>
      by_cases hyx : y = x
      · subst hyx
        rw [List.count_cons_self, List.countP_cons_of_pos _ _ hx]
        omega
      · rw [List.count_cons_of_ne (Ne.symm hyx)]
        rw [List.countP_cons]
        omega

theorem countP_filter_neq {α : Type} [BEq α] [LawfulBEq α] (pr : α → Bool) (x : α)
    (hx : pr x = true) :
    ∀ l : List α, (l.filter (fun e => !(e == x))).countP pr = l.countP pr - l.count x := by
  intro l
  induction l with
  | nil => simp
  | cons y t ih =>
      by_cases hyx : y = x
      · subst hyx
        have hc := count_le_countP pr y hx t
        have hf : (y :: t).filter (fun e => !(e == y)) = t.filter (fun e => !(e == y)) := by
          simp
        rw [hf, ih, List.count_cons_self, List.countP_cons_of_pos _ _ hx]
        omega
      · have hne : (y == x) = false := beq_eq_false_iff_ne.mpr hyx
        have hf : (y :: t).filter (fun e => !(e == x)) = y :: t.filter (fun e => !(e == x)) := by
          simp [hne]
        rw [hf, List.count_cons_of_ne (Ne.symm hyx), List.countP_cons, List.countP_cons, ih]
        have hc := count_le_countP pr x hx t
        omega

theorem contains_filter_self {α : Type} [BEq α] [LawfulBEq α] (x : α) (l : List α) :
    (l.filter (fun e => !(e == x))).contains x = false := by
  simp [List.contains]

theorem contains_append_self {α : Type} [BEq α] [LawfulBEq α] (x : α) (l : List α) :
    (l ++ [x]).contains x = true := by
  simp [List.contains]

/-! ### `LIKE` matcher lemmas -/

theorem likeMatch_pct_all (t : List Char) : likeMatch ['%'] t = true := by
  induction t with
  | nil => rfl
  | cons c ts ih => simp [likeMatch, scanSuffixes] at ih ⊢; exact ih

theorem isPrefixOf_spec (q : List Char) :
    ∀ t, q.isPrefixOf t = true ↔ ∃ r, t = q ++ r := by
  induction q with
  | nil => intro t; simp
  | cons c cs ih =>
      intro t
      cases t with
      | nil => simp [List.isPrefixOf]
      | cons d ts =>
          simp only [List.isPrefixOf, Bool.and_eq_true, beq_iff_eq, ih, List.cons_append,
            List.cons.injEq]
          constructor
          · rintro ⟨h1, r, h2⟩; exact ⟨r, h1.symm, h2⟩
          · rintro ⟨r, h1, h2⟩; exact ⟨h1.symm, r, h2⟩

theorem noWildL_cons (c : Char) (cs : List Char) (hq : noWildL (c :: cs) = true) :
    ¬ c = '%' ∧ ¬ c = '_' ∧ noWildL cs = true := by
  simp only [noWildL, List.all_cons, Bool.and_eq_true, Bool.not_eq_true',
    beq_eq_false_iff_ne] at hq
  exact ⟨hq.1.1, hq.1.2, hq.2⟩

theorem likeMatch_lit (q : List Char) (hq : noWildL q = true) :
    ∀ t, likeMatch (q ++ ['%']) t = q.isPrefixOf t := by
  induction q with
  | nil =>
      intro t
      simp [likeMatch_pct_all, List.isPrefixOf]
  | cons c cs ih =>
      obtain ⟨hc1, hc2, hcs⟩ := noWildL_cons c cs hq
      intro t
      cases t with
      | nil => simp [likeMatch, hc1]
      | cons d ts =>
          simp [likeMatch, hc1, hc2, ih hcs ts, List.isPrefixOf]

theorem scanSuffixes_eq_subB (q : List Char) (f : List Char → Bool)
    (hf : ∀ u, f u = q.isPrefixOf u) : ∀ t, scanSuffixes f t = subB q t := by
  intro t
  induction t with
  | nil => simp [scanSuffixes, subB, hf]
  | cons d ts ih => simp [scanSuffixes, subB, hf, ih]

theorem likeMatch_sub (q : List Char) (hq : noWildL q = true) :
    ∀ t, likeMatch ('%' :: (q ++ ['%'])) t = subB q t := by
  intro t
  have h1 : likeMatch ('%' :: (q ++ ['%'])) t
      = scanSuffixes (likeMatch (q ++ ['%'])) t := by
    simp [likeMatch]
  rw [h1, scanSuffixes_eq_subB q _ (likeMatch_lit q hq)]

theorem subB_spec (q : List Char) :
    ∀ t, subB q t = true ↔ ∃ l r, t = l ++ (q ++ r) := by
  intro t
  induction t with
  | nil =>
      simp only [subB, isPrefixOf_spec]
      constructor
      · rintro ⟨r, h⟩; exact ⟨[], r, by simpa using h⟩
      · rintro ⟨l, r, h⟩
        rcases List.append_eq_nil.mp h.symm with ⟨h1, h2⟩
        exact ⟨r, by simp [h2]⟩
  | cons d ts ih =>
      simp only [subB, Bool.or_eq_true, isPrefixOf_spec, ih]
      constructor
      · rintro (⟨r, h⟩ | ⟨l, r, h⟩)
        · exact ⟨[], r, by simpa using h⟩
        · exact ⟨d :: l, r, by simp [h]⟩
      · rintro ⟨l, r, h⟩
        cases l with
        | nil => exact Or.inl ⟨r, by simpa using h⟩
        | cons x xs =>
            right
            refine ⟨xs, r, ?_⟩
            simpa using (List.cons.injEq .. ▸ h).2

theorem asciiLower_not_wild (c : Char) (h1 : ¬ c = '%') (h2 : ¬ c = '_') :
    ¬ asciiLower c = '%' ∧ ¬ asciiLower c = '_' := by
  unfold asciiLower
  split
  · next hr =>
      have hval : (Char.ofNat (c.toNat + 32)).toNat = c.toNat + 32 := by
        have hv : (c.toNat + 32).isValidChar := by
          left
          omega
        rw [Char.ofNat, dif_pos hv]
        rfl
      have hpct : ('%').toNat = 37 := rfl
      have hund : ('_').toNat = 95 := rfl
      constructor
      · intro he
        have hcongr := congrArg Char.toNat he
        rw [hval, hpct] at hcongr
        omega
      · intro he
        have hcongr := congrArg Char.toNat he
        rw [hval, hund] at hcongr
        omega
  · exact ⟨h1, h2⟩

theorem lowerL_noWild (q : List Char) (hq : noWildL q = true) :
    noWildL (lowerL q) = true := by
  induction q with
  | nil => rfl
  | cons c cs ih =>
      obtain ⟨hc1, hc2, hcs⟩ := noWildL_cons c cs hq
      have hc := asciiLower_not_wild c hc1 hc2
      have hlow := ih hcs
      simp only [lowerL, List.map_cons, noWildL, List.all_cons, Bool.and_eq_true,
        Bool.not_eq_true', beq_eq_false_iff_ne]
      refine ⟨⟨hc.1, hc.2⟩, ?_⟩
      simpa [noWildL, lowerL] using hlow

/-- `ilike('%q%')` agrees with plain case-insensitive substring containment
whenever the query holds no `LIKE` metacharacter. -/
theorem ilikeSub_eq_containsCI (q t : String) (hq : noWildL q.data = true) :
    ilikeSub q t = containsCI q t := by
  unfold ilikeSub containsCI
  have hsplit : lowerL (("%" ++ q ++ "%").data) = '%' :: (lowerL q.data ++ ['%']) := by
    simp [lowerL, String.data_append]
    rfl
  rw [hsplit, likeMatch_sub _ (lowerL_noWild _ hq)]

theorem containsCI_iff_occursCI (q t : String) :
    containsCI q t = true ↔ occursCI q t := by
  unfold containsCI occursCI
  exact subB_spec _ _

/-! ### Ordering lemmas for `ORDER BY date_posted DESC` -/

theorem mem_insertD (a p : PostR) : ∀ l, a ∈ insertD p l ↔ a = p ∨ a ∈ l := by
  intro l
  induction l with
  | nil => simp [insertD]
  | cons q qs ih =>
      simp only [insertD]
      split
      · simp
      · simp only [List.mem_cons, ih]
        tauto

theorem feedOrder_date_le (a b : PostR) (h : feedOrder a b) :
    b.datePosted ≤ a.datePosted := by
  rcases h with h | ⟨h, _⟩ <;> omega

theorem pairwise_insertD (p : PostR) :
    ∀ l, List.Pairwise feedOrder l → (∀ y ∈ l, y.id < p.id) →
      List.Pairwise feedOrder (insertD p l) := by
  intro l
  induction l with
  | nil => intro _ _; simp [insertD, List.Pairwise]
  | cons q qs ih =>
      intro hl hid
      rw [List.pairwise_cons] at hl
      simp only [insertD]
      split
      · next hlt =>
          refine List.pairwise_cons.mpr ⟨?_, List.pairwise_cons.mpr hl⟩
          intro y hy
          rcases List.mem_cons.mp hy with rfl | hy'
          · exact Or.inl hlt
          · have := feedOrder_date_le q y (hl.1 y hy')
            exact Or.inl (by omega)
      · next hge =>
          refine List.pairwise_cons.mpr ⟨?_, ?_⟩
          · intro y hy
            rcases (mem_insertD y p qs).mp hy with rfl | hy'
            · rcases Nat.lt_or_ge q.datePosted y.datePosted with h | h
              · omega
              · rcases Nat.eq_or_lt_of_le h with he | hlt
                · exact Or.inr ⟨he, hid q (List.mem_cons_self q qs)⟩
                · exact Or.inl hlt
            · exact hl.1 y hy'
          · exact ih hl.2 (fun y hy => hid y (List.mem_cons_of_mem q hy))

theorem mem_foldl_insertD (a : PostR) :
    ∀ (l acc : List PostR),
      a ∈ l.foldl (fun ac p => insertD p ac) acc ↔ a ∈ acc ∨ a ∈ l := by
  intro l
  induction l with
  | nil => simp
  | cons p ps ih =>
      intro acc
      simp only [List.foldl_cons, ih, mem_insertD, List.mem_cons]
      tauto

theorem mem_orderByDateDesc (a : PostR) (l : List PostR) :
    a ∈ orderByDateDesc l ↔ a ∈ l := by
  unfold orderByDateDesc
  rw [mem_foldl_insertD]
  simp

theorem pairwise_foldl_insertD :
    ∀ (l acc : List PostR),
      l.Pairwise (fun a b => a.id < b.id) →
      List.Pairwise feedOrder acc →
      (∀ y ∈ acc, ∀ z ∈ l, y.id < z.id) →
      List.Pairwise feedOrder (l.foldl (fun ac p => insertD p ac) acc) := by
  intro l
  induction l with
  | nil => intro acc _ hacc _; simpa using hacc
  | cons p ps ih =>
      intro acc hl hacc hcross
      rw [List.pairwise_cons] at hl
      simp only [List.foldl_cons]
      refine ih _ hl.2 ?_ ?_
      · exact pairwise_insertD p acc hacc
          (fun y hy => hcross y hy p (List.mem_cons_self p ps))
      · intro y hy z hz
        rcases (mem_insertD y p acc).mp hy with rfl | hy'
        · exact hl.1 z hz
        · exact hcross y hy' z (List.mem_cons_of_mem p hz)

/-- Feed sorting yields the implemented order whenever the scanned rows come
in ascending-id (rowid) order. -/
theorem pairwise_orderByDateDesc (l : List PostR)
    (hl : l.Pairwise (fun a b => a.id < b.id)) :
    List.Pairwise feedOrder (orderByDateDesc l) := by
  unfold orderByDateDesc
  exact pairwise_foldl_insertD l [] hl (by simp) (by simp)

/-! ### Step lemmas for the engagement and relationship routes -/

theorem getUser_id (s : Store) (uid : Nat) (u : UserR) (h : getUser s uid = some u) :
    u.id = uid := by
  have := List.find?_some h
  simpa using this

theorem getPost_id (s : Store) (pid : Nat) (p : PostR) (h : getPost s pid = some p) :
    p.id = pid := by
  have := List.find?_some h
  simpa using this

theorem find?_map_keepId (f : PostR → PostR) (hf : ∀ p, (f p).id = p.id) (pid : Nat) :
    ∀ l : List PostR,
      (l.map f).find? (fun p => p.id == pid) = (l.find? (fun p => p.id == pid)).map f := by
  intro l
  induction l with
  | nil => rfl
  | cons p ps ih =>
      simp only [List.map_cons, List.find?]
      rw [hf p]
      by_cases h : p.id = pid
      · simp [h]
      · have hb : (p.id == pid) = false := beq_eq_false_iff_ne.mpr h
        simp [hb, ih]

theorem upvote_post_not_liked (s : Store) (uid pid : Nat) (u : UserR) (po : PostR)
    (hu : getUser s uid = some u) (hp : getPost s pid = some po)
    (hl : has_liked s uid pid = false) :
    upvote_post s (some uid) pid = .ok
      ({ s with
          post_upvotes := s.post_upvotes ++ [(uid, pid)],
          posts := s.posts.map (fun p =>
            if p.id == pid then { p with upvotes := liked_by_count s pid + 1 } else p) },
       true, liked_by_count s pid + 1) := by
  have hid := getUser_id s uid u hu
  subst hid
  have hmem : (u.id, pid) ∉ s.post_upvotes := by
    simpa [has_liked, List.contains] using hl
  simp [upvote_post, hp, hu, liked_by_count, has_liked, List.contains, hmem,
    List.countP_append]

theorem upvote_post_liked (s : Store) (uid pid : Nat) (u : UserR) (po : PostR)
    (hu : getUser s uid = some u) (hp : getPost s pid = some po)
    (hl : has_liked s uid pid = true) :
    upvote_post s (some uid) pid = .ok
      ({ s with
          post_upvotes := s.post_upvotes.filter (fun e => !(e == (uid, pid))),
          posts := s.posts.map (fun p =>
            if p.id == pid then
              { p with upvotes := liked_by_count s pid - s.post_upvotes.count (uid, pid) }
            else p) },
       false, liked_by_count s pid - s.post_upvotes.count (uid, pid)) := by
  have hid := getUser_id s uid u hu
  subst hid
  have hmem : (u.id, pid) ∈ s.post_upvotes := by
    simpa [has_liked, List.contains] using hl
  have hcount : List.countP (fun e => e.2 == pid)
      (s.post_upvotes.filter (fun e => !(e == (u.id, pid))))
      = List.countP (fun e => e.2 == pid) s.post_upvotes
        - s.post_upvotes.count (u.id, pid) :=
    countP_filter_neq _ (u.id, pid) (beq_self_eq_true pid) s.post_upvotes
  simp [upvote_post, hp, hu, liked_by_count, has_liked, List.contains, hmem, hcount]

theorem follow_new (s : Store) (u v : Nat) (uo vo : UserR)
    (hu : getUser s u = some uo) (hv : getUser s v = some vo)
    (hne : v ≠ u) (hnf : is_following s u v = false) :
    follow s (some u) v = .ok { s with followers_assoc := s.followers_assoc ++ [(u, v)] } := by
  have hidu := getUser_id s u uo hu
  have hidv := getUser_id s v vo hv
  simp [follow, hu, hv, hidu, hidv, hne, hnf]

theorem follow_dup (s : Store) (u v : Nat) (uo vo : UserR)
    (hu : getUser s u = some uo) (hv : getUser s v = some vo)
    (hf : is_following s u v = true) :
    follow s (some u) v = .ok s := by
  have hidu := getUser_id s u uo hu
  have hidv := getUser_id s v vo hv
  simp [follow, hu, hv, hidu, hidv, hf]

theorem follow_self (s : Store) (u : Nat) (uo : UserR)
    (hu : getUser s u = some uo) :
    follow s (some u) u = .ok s := by
  have hidu := getUser_id s u uo hu
  simp [follow, hu, hidu]

theorem unfollow_eq (s : Store) (u v : Nat) (uo vo : UserR)
    (hu : getUser s u = some uo) (hv : getUser s v = some vo) :
    unfollow s (some u) v
      = .ok { s with followers_assoc := s.followers_assoc.erase (u, v) } := by
  have hidu := getUser_id s u uo hu
  have hidv := getUser_id s v vo hv
  simp [unfollow, hu, hv, hidu, hidv]

instance {ε α : Type} [DecidableEq ε] [DecidableEq α] : DecidableEq (Except ε α) :=
  fun x y =>
    match x, y with
    | .ok a, .ok b =>
        if h : a = b then isTrue (by rw [h]) else isFalse (by intro he; cases he; exact h rfl)
    | .error a, .error b =>
        if h : a = b then isTrue (by rw [h]) else isFalse (by intro he; cases he; exact h rfl)
    | .ok _, .error _ => isFalse (by intro he; cases he)
    | .error _, .ok _ => isFalse (by intro he; cases he)

/-! ### Concrete demonstration databases -/

/-- Demo database: users alice (id 1) and bob (id 2); post 1 "Hello World"
by alice (timestamp 10, tags science and Math) and post 2 "Second" by bob
(timestamp 20, tag science). -/
def demoStore : Store := runOps Store.empty
  [ .register "alice", .register "bob",
    .newPost (some 1) "Hello World" "math is fun" "science, Math" 10,
    .newPost (some 2) "Second" "more CONTENT here" "science" 20 ]

/-- Demo database with two posts sharing the creation timestamp 5. -/
def demoTie : Store := runOps Store.empty
  [ .register "alice",
    .newPost (some 1) "A" "a" "" 5,
    .newPost (some 1) "B" "b" "" 5 ]

/-- Demo database in which post 1 by alice carries one comment. -/
def demoCommented : Store := runOps Store.empty
  [ .register "alice",
    .newPost (some 1) "Hello World" "math is fun" "science" 10,
    .comment 1 "great post" ]

/-! ### Field-preservation lemmas for the mutating routes -/

theorem addTag_fields (s : Store) (pid : Nat) (tn : String) :
    (addTag s pid tn).followers_assoc = s.followers_assoc ∧
    ((addTag s pid tn).tags = s.tags ∨
      (s.tags.find? (fun t => t.name == tn) = none ∧
        (addTag s pid tn).tags = s.tags ++ [⟨s.nextTagId, tn⟩])) := by
  cases hf : s.tags.find? (fun t => t.name == tn) with
  | none =>
      refine ⟨?_, Or.inr ⟨rfl, ?_⟩⟩
      · simp only [addTag, hf]
        split <;> rfl
      · simp only [addTag, hf]
        split <;> rfl
  | some tag =>
      refine ⟨?_, Or.inl ?_⟩
      · simp only [addTag, hf]
        split <;> rfl
      · simp only [addTag, hf]
        split <;> rfl

theorem addTags_fields (pid : Nat) :
    ∀ (tns : List String) (s : Store),
      (addTags s pid tns).followers_assoc = s.followers_assoc ∧
      (tagNamesUnique s → tagNamesUnique (addTags s pid tns)) := by
  intro tns
  induction tns with
  | nil => intro s; exact ⟨rfl, fun h => h⟩
  | cons tn rest ih =>
      intro s
      have hstep := addTag_fields s pid tn
      have hrec := ih (addTag s pid tn)
      constructor
      · calc (addTags s pid (tn :: rest)).followers_assoc
              = (addTag s pid tn).followers_assoc := hrec.1
          _ = s.followers_assoc := hstep.1
      · intro hu
        refine hrec.2 ?_
        rcases hstep.2 with he | ⟨hn, he⟩
        · unfold tagNamesUnique
          rw [he]
          exact hu
        · unfold tagNamesUnique
          rw [he]
          rw [List.pairwise_append]
          refine ⟨hu, by simp, ?_⟩
          intro a ha b hb
          have hb' : b = (⟨s.nextTagId, tn⟩ : TagR) := by simpa using hb
          subst hb'
          have := List.find?_eq_none.mp hn a ha
          simpa using this

theorem register_ok_fields (s : Store) (un : String) (s' : Store)
    (h : register s un = .ok s') :
    s'.tags = s.tags ∧ s'.followers_assoc = s.followers_assoc := by
  by_cases hc : s.users.any (fun u => u.username == un)
  · simp [register, hc] at h
  · simp only [register, hc, Bool.false_eq_true, if_neg, ite_false, Except.ok.injEq] at h
    subst h
    exact ⟨rfl, rfl⟩

theorem new_post_ok_fields (s : Store) (sess : Option Nat)
    (title content tags_raw : String) (now : Nat) (r : Store × Nat)
    (h : new_post s sess title content tags_raw now = .ok r) :
    r.1.followers_assoc = s.followers_assoc ∧
    (tagNamesUnique s → tagNamesUnique r.1) := by
  cases hcu : sess.bind (getUser s) with
  | none => simp [new_post, hcu] at h
  | some cu =>
      by_cases hv : pyStrip title = "" ∨ pyStrip content = ""
      · simp [new_post, hcu, hv] at h
      · simp only [new_post, hcu, hv, ite_false, Except.ok.injEq, if_neg] at h
        set s1 : Store :=
          { s with
              posts := s.posts ++ [⟨s.nextPostId, pyStrip title, pyStrip content, now, cu.id, 0⟩],
              nextPostId := s.nextPostId + 1 } with hs1
        have hfields := addTags_fields s.nextPostId (parseTags tags_raw) s1
        have hr1 : r.1 = addTags s1 s.nextPostId (parseTags tags_raw) := by
          rw [← h]
        constructor
        · rw [hr1, hfields.1]
        · intro hu
          rw [hr1]
          exact hfields.2 hu

theorem comment_ok_fields (s : Store) (pid : Nat) (body : String)
    (r : Store × CommentR) (h : post_detail_comment s pid body = .ok r) :
    r.1.followers_assoc = s.followers_assoc ∧ r.1.tags = s.tags := by
  cases hp : getPost s pid with
  | none => simp [post_detail_comment, hp] at h
  | some po =>
      by_cases hb : pyStrip body = ""
      · simp [post_detail_comment, hp, hb] at h
      · simp only [post_detail_comment, hp, hb, ite_false, Except.ok.injEq, if_neg] at h
        cases hdu : s.users.head? with
        | some u0 =>
            rw [← h]
            simp [get_default_user, hdu]
        | none =>
            rw [← h]
            simp [get_default_user, hdu]

theorem upvote_ok_fields (s : Store) (sess : Option Nat) (pid : Nat)
    (r : Store × Bool × Nat) (h : upvote_post s sess pid = .ok r) :
    r.1.followers_assoc = s.followers_assoc ∧ r.1.tags = s.tags := by
  cases sess with
  | none => simp [upvote_post] at h
  | some uid =>
      cases hp : getPost s pid with
      | none => simp [upvote_post, hp] at h
      | some po =>
          cases hu : getUser s uid with
          | none => simp [upvote_post, hp, hu] at h
          | some u =>
              simp only [upvote_post, hp, hu, Except.ok.injEq] at h
              rw [← h]
              exact ⟨rfl, rfl⟩

theorem bookmark_ok_fields (s : Store) (sess : Option Nat) (pid : Nat)
    (r : Store × Bool) (h : toggle_bookmark s sess pid = .ok r) :
    r.1.followers_assoc = s.followers_assoc ∧ r.1.tags = s.tags := by
  cases sess with
  | none => simp [toggle_bookmark] at h
  | some uid =>
      cases hu : getUser s uid with
      | none => simp [toggle_bookmark, hu] at h
      | some u =>
          cases hp : getPost s pid with
          | none => simp [toggle_bookmark, hu, hp] at h
          | some po =>
              simp only [toggle_bookmark, hu, hp] at h
              by_cases hb : has_bookmarked s u.id pid
              · rw [if_pos hb] at h
                injection h with h2
                rw [← h2]
                exact ⟨rfl, rfl⟩
              · rw [if_neg hb] at h
                injection h with h2
                rw [← h2]
                exact ⟨rfl, rfl⟩

theorem follow_ok_fields (s : Store) (sess : Option Nat) (t : Nat) (s' : Store)
    (h : follow s sess t = .ok s') :
    s'.tags = s.tags ∧
    (s'.followers_assoc = s.followers_assoc ∨
      ∃ a b, a ≠ b ∧ s'.followers_assoc = s.followers_assoc ++ [(a, b)]) := by
  cases sess with
  | none => simp [follow] at h
  | some uid =>
      cases ht : getUser s t with
      | none => simp [follow, ht] at h
      | some user =>
          cases hu : getUser s uid with
          | none => simp [follow, ht, hu] at h
          | some cu =>
              simp only [follow, ht, hu] at h
              by_cases hg : user.id ≠ cu.id ∧ ¬ is_following s cu.id user.id
              · rw [if_pos hg] at h
                injection h with h2
                rw [← h2]
                exact ⟨rfl, Or.inr ⟨cu.id, user.id, fun he => hg.1 he.symm, rfl⟩⟩
              · rw [if_neg hg] at h
                injection h with h2
                rw [← h2]
                exact ⟨rfl, Or.inl rfl⟩

theorem unfollow_ok_fields (s : Store) (sess : Option Nat) (t : Nat) (s' : Store)
    (h : unfollow s sess t = .ok s') :
    s'.tags = s.tags ∧
    ∃ x, s'.followers_assoc = s.followers_assoc.erase x := by
  cases sess with
  | none => simp [unfollow] at h
  | some uid =>
      cases ht : getUser s t with
      | none => simp [unfollow, ht] at h
      | some user =>
          cases hu : getUser s uid with
          | none => simp [unfollow, ht, hu] at h
          | some cu =>
              simp only [unfollow, ht, hu, Except.ok.injEq] at h
              rw [← h]
              exact ⟨rfl, ⟨(cu.id, user.id), rfl⟩⟩

theorem delete_ok_fields (s : Store) (sess : Option Nat) (pid : Nat) (s' : Store)
    (h : delete_post s sess pid = .ok s') :
    s'.tags = s.tags ∧ s'.followers_assoc = s.followers_assoc := by
  cases hp : getPost s pid with
  | none => simp [delete_post, hp] at h
  | some p =>
      simp only [delete_post, hp] at h
      by_cases hauth : (sess.bind (getUser s)).map (fun u => u.id) = some p.authorId
      · rw [if_pos hauth] at h
        by_cases hcm : s.comments.any (fun c => c.postId == pid)
        · rw [if_pos hcm] at h
          cases h
        · rw [if_neg hcm] at h
          injection h with h2
          rw [← h2]
          exact ⟨rfl, rfl⟩
      · rw [if_neg hauth] at h
        cases hcu : sess.bind (getUser s) with
        | none => rw [hcu] at h; cases h
        | some u => rw [hcu] at h; cases h

/-! ### Claim theorems -/

/-- C3: deleting a post is claimed to cascade over comments, tag
associations, like/bookmark edges and notifications.  The code violates the
comment part: `Post.comments` carries no delete cascade, so deleting a post
that has a comment aborts with an `IntegrityError` (the unit of work tries
to null the NOT NULL `comment.post_id`), leaving the whole store unchanged
and the comment in place.  On a post without comments the cascade over
tag/like/bookmark edges does happen and the deleted post disappears from
every feed while `toggleLike` on it turns into `NotFound`. -/
theorem delete_post_comment_cascade_bug :
    delete_post demoCommented (some 1) 1 = .error .integrityError ∧
    (getPost demoCommented 1).isSome = true ∧
    demoCommented.comments.map CommentR.postId = [1] ∧
    applyOp demoCommented (.deletePost (some 1) 1) = demoCommented ∧
    (applyOp demoCommented (.deletePost (some 1) 1)).comments.map CommentR.postId = [1] ∧
    delete_post demoStore (some 1) 1
      = .ok (applyOp demoStore (.deletePost (some 1) 1)) ∧
    getPost (applyOp demoStore (.deletePost (some 1) 1)) 1 = none ∧
    (applyOp demoStore (.deletePost (some 1) 1)).post_tags.all (fun e => e.1 ≠ 1) = true ∧
    (applyOp demoStore (.deletePost (some 1) 1)).post_upvotes.all (fun e => e.2 ≠ 1) = true ∧
    (applyOp demoStore (.deletePost (some 1) 1)).bookmark.all (fun e => e.2 ≠ 1) = true ∧
    upvote_post (applyOp demoStore (.deletePost (some 1) 1)) (some 2) 1
      = .error .notFound ∧
    (index (applyOp demoStore (.deletePost (some 1) 1)) none none none none
        "discover").toOption.map (List.map PostR.id) = some [2] := by
  decide

/-- C9 (counterexample): `delete_post` with no signed-in requester does not
fail with `Forbidden`: after flashing the permission error the route
dereferences `current_user.id` on `None` and dies with an
`AttributeError`. -/
theorem delete_post_unauthenticated_counterexample :
    delete_post demoStore none 1 = .error .internalError ∧
    Err.internalError ≠ Err.forbidden ∧
    applyOp demoStore (.deletePost none 1) = demoStore := by
  decide

/-- C9 (amended): deletion is performed only for the post's author; a
signed-in non-author gets `Forbidden` with the store untouched; with no
signed-in requester (or a stale session id) the store is likewise untouched
but the request dies with an internal error instead of `Forbidden`. -/
theorem delete_post_requires_author (s : Store) (pid : Nat) (p : PostR)
    (r : Option Nat) (hp : getPost s pid = some p) :
    (∀ uid u, r = some uid → getUser s uid = some u → u.id ≠ p.authorId →
        delete_post s r pid = .error .forbidden) ∧
    (r = none → delete_post s r pid = .error .internalError) ∧
    (∀ uid, r = some uid → getUser s uid = none →
        delete_post s r pid = .error .internalError) ∧
    (∀ e, delete_post s r pid = .error e → applyOp s (.deletePost r pid) = s) ∧
    (∀ s', delete_post s r pid = .ok s' →
        ∃ uid u, r = some uid ∧ getUser s uid = some u ∧ u.id = p.authorId) := by
  refine ⟨?_, ?_, ?_, ?_, ?_⟩
  · intro uid u hr hu hne
    subst hr
    simp [delete_post, hp, hu, hne]
  · intro hr
    subst hr
    simp [delete_post, hp, Option.bind]
  · intro uid hr hu
    subst hr
    simp [delete_post, hp, hu]
  · intro e he
    simp [applyOp, he]
  · intro s' hok
    cases r with
    | none => simp [delete_post, hp, Option.bind] at hok
    | some uid =>
        cases hu : getUser s uid with
        | none => simp [delete_post, hp, hu] at hok
        | some u =>
            by_cases hne : u.id = p.authorId
            · exact ⟨uid, u, rfl, hu, hne⟩
            · simp [delete_post, hp, hu, hne] at hok

/-- C9 (witness for the amended theorem): in the demo store, bob (id 2) is
not the author of post 1, so his delete attempt is `Forbidden`. -/
theorem delete_post_requires_author_witness :
    delete_post demoStore (some 2) 1 = .error .forbidden := by
  have h := delete_post_requires_author demoStore 1 ⟨1, "Hello World", "math is fun", 10, 1, 0⟩
    (some 2) (by decide)
  exact h.1 2 ⟨2, "bob"⟩ rfl (by decide) (by decide)

theorem applyOp_noSelfEdge (s : Store) (op : Op) (h : noSelfEdge s) :
    noSelfEdge (applyOp s op) := by
  have key : (applyOp s op).followers_assoc = s.followers_assoc ∨
      (∃ a b, a ≠ b ∧ (applyOp s op).followers_assoc = s.followers_assoc ++ [(a, b)]) ∨
      (∃ x, (applyOp s op).followers_assoc = s.followers_assoc.erase x) := by
    cases op with
    | register un =>
        simp only [applyOp]
        cases hr : register s un with
        | error e => exact Or.inl rfl
        | ok s' => exact Or.inl (register_ok_fields s un s' hr).2
    | newPost sess t c tr now =>
        simp only [applyOp]
        cases hr : new_post s sess t c tr now with
        | error e => exact Or.inl rfl
        | ok r => exact Or.inl (new_post_ok_fields s sess t c tr now r hr).1
    | comment pid b =>
        simp only [applyOp]
        cases hr : post_detail_comment s pid b with
        | error e => exact Or.inl rfl
        | ok r => exact Or.inl (comment_ok_fields s pid b r hr).1
    | upvote sess pid =>
        simp only [applyOp]
        cases hr : upvote_post s sess pid with
        | error e => exact Or.inl rfl
        | ok r => exact Or.inl (upvote_ok_fields s sess pid r hr).1
    | bookmarkToggle sess pid =>
        simp only [applyOp]
        cases hr : toggle_bookmark s sess pid with
        | error e => exact Or.inl rfl
        | ok r => exact Or.inl (bookmark_ok_fields s sess pid r hr).1
    | follow sess t =>
        simp only [applyOp]
        cases hr : follow s sess t with
        | error e => exact Or.inl rfl
        | ok s' =>
            rcases (follow_ok_fields s sess t s' hr).2 with he | ⟨a, b, hab, he⟩
            · exact Or.inl he
            · exact Or.inr (Or.inl ⟨a, b, hab, he⟩)
    | unfollow sess t =>
        simp only [applyOp]
        cases hr : unfollow s sess t with
        | error e => exact Or.inl rfl
        | ok s' =>
            obtain ⟨x, he⟩ := (unfollow_ok_fields s sess t s' hr).2
            exact Or.inr (Or.inr ⟨x, he⟩)
    | deletePost sess pid =>
        simp only [applyOp]
        cases hr : delete_post s sess pid with
        | error e => exact Or.inl rfl
        | ok s' => exact Or.inl (delete_ok_fields s sess pid s' hr).2
  rcases key with he | ⟨a, b, hab, he⟩ | ⟨x, he⟩
  · intro e hm
    rw [he] at hm
    exact h e hm
  · intro e hm
    rw [he] at hm
    rcases List.mem_append.mp hm with hm' | hm'
    · exact h e hm'
    · have : e = (a, b) := by simpa using hm'
      subst this
      exact hab
  · intro e hm
    rw [he] at hm
    exact h e (List.mem_of_mem_erase hm)

/-- C5: following oneself is a universal no-op — for an existing user the
route answers success without touching the store, and running it any number
of times through `applyOp` never changes anything — and, consequently, no
state reachable from the empty database contains a self-edge in the follow
graph. -/
theorem follow_self_noop_no_self_edge (s : Store) (u : Nat) :
    applyOp s (.follow (some u) u) = s ∧
    ((∃ uo, getUser s u = some uo) → follow s (some u) u = .ok s) ∧
    (∀ ops : List Op, noSelfEdge (runOps Store.empty ops)) := by
  refine ⟨?_, ?_, ?_⟩
  · cases hu : getUser s u with
    | none => simp [applyOp, follow, hu]
    | some uo => simp [applyOp, follow_self s u uo hu]
  · rintro ⟨uo, hu⟩
    exact follow_self s u uo hu
  · intro ops
    have base : noSelfEdge Store.empty := by
      intro e hm
      simp [Store.empty] at hm
    induction ops using List.reverseRecOn with
    | nil => exact base
    | append_singleton l op ih =>
        unfold runOps
        rw [List.foldl_append]
        exact applyOp_noSelfEdge _ op ih

/-- C5 (witness): in the demo store, alice following herself reports
success and leaves the store exactly as it was. -/
theorem follow_self_noop_no_self_edge_witness :
    follow demoStore (some 1) 1 = .ok demoStore ∧
    noSelfEdge (runOps Store.empty
      [.register "a", .register "b", .follow (some 1) 2, .follow (some 1) 1]) := by
  have h := follow_self_noop_no_self_edge demoStore 1
  exact ⟨h.2.1 ⟨⟨1, "alice"⟩, by decide⟩,
    h.2.2 [.register "a", .register "b", .follow (some 1) 2, .follow (some 1) 1]⟩

theorem addTag_reuse (s : Store) (pid : Nat) (tn : String)
    (h : ∃ t ∈ s.tags, t.name = tn) : (addTag s pid tn).tags = s.tags := by
  have hs : (s.tags.find? (fun t => t.name == tn)).isSome = true := by
    rw [List.find?_isSome]
    obtain ⟨t, ht, he⟩ := h
    exact ⟨t, ht, by simp [he]⟩
  cases hf : s.tags.find? (fun t => t.name == tn) with
  | none => rw [hf] at hs; cases hs
  | some tag =>
      simp only [addTag, hf]
      split <;> rfl

theorem applyOp_tagNamesUnique (s : Store) (op : Op) (h : tagNamesUnique s) :
    tagNamesUnique (applyOp s op) := by
  cases op with
  | register un =>
      simp only [applyOp]
      cases hr : register s un with
      | error e => exact h
      | ok s' => unfold tagNamesUnique; rw [(register_ok_fields s un s' hr).1]; exact h
  | newPost sess t c tr now =>
      simp only [applyOp]
      cases hr : new_post s sess t c tr now with
      | error e => exact h
      | ok r => exact (new_post_ok_fields s sess t c tr now r hr).2 h
  | comment pid b =>
      simp only [applyOp]
      cases hr : post_detail_comment s pid b with
      | error e => exact h
      | ok r => unfold tagNamesUnique; rw [(comment_ok_fields s pid b r hr).2]; exact h
  | upvote sess pid =>
      simp only [applyOp]
      cases hr : upvote_post s sess pid with
      | error e => exact h
      | ok r => unfold tagNamesUnique; rw [(upvote_ok_fields s sess pid r hr).2]; exact h
  | bookmarkToggle sess pid =>
      simp only [applyOp]
      cases hr : toggle_bookmark s sess pid with
      | error e => exact h
      | ok r => unfold tagNamesUnique; rw [(bookmark_ok_fields s sess pid r hr).2]; exact h
  | follow sess t =>
      simp only [applyOp]
      cases hr : follow s sess t with
      | error e => exact h
      | ok s' => unfold tagNamesUnique; rw [(follow_ok_fields s sess t s' hr).1]; exact h
  | unfollow sess t =>
      simp only [applyOp]
      cases hr : unfollow s sess t with
      | error e => exact h
      | ok s' => unfold tagNamesUnique; rw [(unfollow_ok_fields s sess t s' hr).1]; exact h
  | deletePost sess pid =>
      simp only [applyOp]
      cases hr : delete_post s sess pid with
      | error e => exact h
      | ok s' => unfold tagNamesUnique; rw [(delete_ok_fields s sess pid s' hr).1]; exact h

/-- Database produced by creating one post tagged `"Math, math"`. -/
def demoTagsCaseSensitive : Store := runOps Store.empty
  [ .register "alice", .newPost (some 1) "T" "C" "Math, math" 1 ]

/-- Database produced by creating one post tagged `"Math, Math"`. -/
def demoTagsDup : Store := runOps Store.empty
  [ .register "alice", .newPost (some 1) "T" "C" "Math, Math" 1 ]

/-- C6: tag names are case-sensitively unique in every reachable state and
the tag loop of `new_post` reuses an existing tag on exact name match;
creating a post tagged `"Math, math"` yields two distinct tags both
associated with the post in order, while `"Math, Math"` yields one tag
associated exactly once. -/
theorem tag_reuse_and_dedup :
    (∀ (s : Store) (pid : Nat) (tn : String),
        (∃ t ∈ s.tags, t.name = tn) → (addTag s pid tn).tags = s.tags) ∧
    (∀ ops : List Op, tagNamesUnique (runOps Store.empty ops)) ∧
    demoTagsCaseSensitive.tags = [⟨1, "Math"⟩, ⟨2, "math"⟩] ∧
    demoTagsCaseSensitive.post_tags = [(1, 1), (1, 2)] ∧
    demoTagsDup.tags = [⟨1, "Math"⟩] ∧
    demoTagsDup.post_tags = [(1, 1)] := by
  refine ⟨addTag_reuse, ?_, by decide, by decide, by decide, by decide⟩
  intro ops
  have base : tagNamesUnique Store.empty := by
    unfold tagNamesUnique Store.empty
    simp
  induction ops using List.reverseRecOn with
  | nil => exact base
  | append_singleton l op ih =>
      unfold runOps
      rw [List.foldl_append]
      exact applyOp_tagNamesUnique _ op ih

/-- C6 (witness): adding the existing name "science" to a post of the demo
store creates no new tag row. -/
theorem tag_reuse_and_dedup_witness :
    (addTag demoStore 1 "science").tags = demoStore.tags :=
  tag_reuse_and_dedup.1 demoStore 1 "science" ⟨⟨1, "science"⟩, by decide, rfl⟩

/-- C4: for two distinct existing users, following twice leaves exactly one
`(u, v)` edge, unfollowing then removes it, a second unfollow changes
nothing, and `followers_count` is by definition exactly the number of edges
pointing at the user. -/
theorem follow_unfollow_graph (s : Store) (u v : Nat) (uo vo : UserR)
    (hu : getUser s u = some uo) (hv : getUser s v = some vo) (hne : u ≠ v)
    (hdup : s.followers_assoc.count (u, v) ≤ 1) :
    (∀ w, followers_count s w = s.followers_assoc.countP (fun e => e.2 == w)) ∧
    ∃ s1, follow s (some u) v = .ok s1 ∧
      follow s1 (some u) v = .ok s1 ∧
      s1.followers_assoc.count (u, v) = 1 ∧
      ∃ s2, unfollow s1 (some u) v = .ok s2 ∧
        s2.followers_assoc.count (u, v) = 0 ∧
        unfollow s2 (some u) v = .ok s2 := by
  refine ⟨fun w => rfl, ?_⟩
  by_cases hf : is_following s u v = true
  · -- the edge already exists: both follows are no-ops
    have hmem : (u, v) ∈ s.followers_assoc := by
      simpa [is_following, List.contains] using hf
    have hpos : 0 < s.followers_assoc.count (u, v) := List.count_pos_iff.mpr hmem
    have hcnt : s.followers_assoc.count (u, v) = 1 := by omega
    refine ⟨s, follow_dup s u v uo vo hu hv hf, follow_dup s u v uo vo hu hv hf, hcnt, ?_⟩
    refine ⟨{ s with followers_assoc := s.followers_assoc.erase (u, v) },
      unfollow_eq s u v uo vo hu hv, ?_, ?_⟩
    · rw [List.count_erase_self, hcnt]
    · have hzero : (s.followers_assoc.erase (u, v)).count (u, v) = 0 := by
        rw [List.count_erase_self, hcnt]
      have hnm : (u, v) ∉ s.followers_assoc.erase (u, v) := by
        intro hm
        have := List.count_pos_iff.mpr hm
        omega
      have h2 := unfollow_eq { s with followers_assoc := s.followers_assoc.erase (u, v) }
        u v uo vo hu hv
      rw [List.erase_of_not_mem hnm] at h2
      exact h2
  · -- no edge yet: the first follow inserts it, the second is a no-op
    have hnf : is_following s u v = false := by
      simpa using hf
    have hnm : (u, v) ∉ s.followers_assoc := by
      simpa [is_following, List.contains] using hnf
    have hcnt0 : s.followers_assoc.count (u, v) = 0 :=
      List.count_eq_zero.mpr hnm
    set s1 : Store := { s with followers_assoc := s.followers_assoc ++ [(u, v)] } with hs1
    have hf1 : is_following s1 u v = true := by
      simp [is_following, List.contains, hs1]
    have hcnt1 : s1.followers_assoc.count (u, v) = 1 := by
      simp [hs1, List.count_append, hcnt0]
    refine ⟨s1, follow_new s u v uo vo hu hv (Ne.symm hne) hnf,
      follow_dup s1 u v uo vo hu hv hf1, hcnt1, ?_⟩
    refine ⟨{ s1 with followers_assoc := s1.followers_assoc.erase (u, v) },
      unfollow_eq s1 u v uo vo hu hv, ?_, ?_⟩
    · rw [List.count_erase_self, hcnt1]
    · have hzero : (s1.followers_assoc.erase (u, v)).count (u, v) = 0 := by
        rw [List.count_erase_self, hcnt1]
      have hnm2 : (u, v) ∉ s1.followers_assoc.erase (u, v) := by
        intro hm
        have := List.count_pos_iff.mpr hm
        omega
      have h2 := unfollow_eq { s1 with followers_assoc := s1.followers_assoc.erase (u, v) }
        u v uo vo hu hv
      rw [List.erase_of_not_mem hnm2] at h2
      exact h2

/-- C4 (witness): alice (1) and bob (2) in the demo store. -/
theorem follow_unfollow_graph_witness :
    followers_count demoStore 2
      = demoStore.followers_assoc.countP (fun e => e.2 == 2) ∧
    ∃ s1, follow demoStore (some 1) 2 = .ok s1 ∧
      follow s1 (some 1) 2 = .ok s1 ∧
      s1.followers_assoc.count (1, 2) = 1 ∧
      ∃ s2, unfollow s1 (some 1) 2 = .ok s2 ∧
        s2.followers_assoc.count (1, 2) = 0 ∧
        unfollow s2 (some 1) 2 = .ok s2 := by
  have h := follow_unfollow_graph demoStore 1 2 ⟨1, "alice"⟩ ⟨2, "bob"⟩
    (by decide) (by decide) (by decide) (by decide)
  exact ⟨h.1 2, h.2⟩

theorem getPost_map_setUpvotes (posts : List PostR) (pid c : Nat) (po : PostR)
    (hp : posts.find? (fun p => p.id == pid) = some po) :
    (posts.map (fun p => if p.id == pid then { p with upvotes := c } else p)).find?
        (fun p => p.id == pid) = some { po with upvotes := c } := by
  rw [find?_map_keepId _ (fun p => by split <;> rfl) pid, hp]
  have hpo : po.id = pid := by
    have := List.find?_some hp
    simpa using this
  simp [hpo]

/-- C2: every successful `upvote_post` reports a count recomputed from the
like-edge set of the post-mutation store, writes that same number into the
post's cached `upvotes` column, and reports the re-queried liked flag — the
caller never sees a stale cache. -/
theorem like_cache_consistent (s : Store) (sess : Option Nat) (pid : Nat)
    (s' : Store) (liked : Bool) (cnt : Nat)
    (h : upvote_post s sess pid = .ok (s', liked, cnt)) :
    cnt = liked_by_count s' pid ∧
    (∃ po', getPost s' pid = some po' ∧ po'.upvotes = liked_by_count s' pid) ∧
    (∀ uid, sess = some uid → liked = has_liked s' uid pid) := by
  cases sess with
  | none => simp [upvote_post] at h
  | some uid =>
      cases hp : getPost s pid with
      | none => simp [upvote_post, hp] at h
      | some po =>
          cases hu : getUser s uid with
          | none => simp [upvote_post, hp, hu] at h
          | some u =>
              have hid := getUser_id s uid u hu
              subst hid
              simp only [upvote_post, hp, hu, Except.ok.injEq, Prod.mk.injEq] at h
              obtain ⟨hs', hl, hc⟩ := h
              subst hs' hl hc
              refine ⟨rfl, ?_, ?_⟩
              · exact ⟨_, getPost_map_setUpvotes s.posts pid _ po hp, rfl⟩
              · intro uid0 h0
                injection h0 with h0
                subst h0
                rfl

/-- C2 (witness): alice likes post 1 of the demo store. -/
theorem like_cache_consistent_witness :
    (1 : Nat) = liked_by_count (applyOp demoStore (.upvote (some 1) 1)) 1 ∧
    (∃ po', getPost (applyOp demoStore (.upvote (some 1) 1)) 1 = some po' ∧
      po'.upvotes = liked_by_count (applyOp demoStore (.upvote (some 1) 1)) 1) ∧
    (∀ uid, (some 1 : Option Nat) = some uid →
      true = has_liked (applyOp demoStore (.upvote (some 1) 1)) uid 1) := by
  exact like_cache_consistent demoStore (some 1) 1
    (applyOp demoStore (.upvote (some 1) 1)) true 1 (by decide)

/-- C1: toggling a like twice restores `has_liked` and the edge-derived like
count; the flag returned by each call is the post-mutation liked state and
the count is recomputed from the edge set, so starting from no likes the two
calls return `(true, 1)` then `(false, 0)`; under the cache invariant the
post row itself is restored verbatim. -/
theorem toggle_like_involutive (s : Store) (u p : Nat) (uo : UserR) (po : PostR)
    (hu : getUser s u = some uo) (hp : getPost s p = some po)
    (hdup : s.post_upvotes.count (u, p) ≤ 1) :
    ∃ s1 c1 s2 c2,
      upvote_post s (some u) p = .ok (s1, !(has_liked s u p), c1) ∧
      upvote_post s1 (some u) p = .ok (s2, has_liked s u p, c2) ∧
      has_liked s2 u p = has_liked s u p ∧
      liked_by_count s2 p = liked_by_count s p ∧
      c1 = liked_by_count s1 p ∧
      c2 = liked_by_count s2 p ∧
      (po.upvotes = liked_by_count s p → getPost s2 p = some po) ∧
      (has_liked s u p = false → liked_by_count s p = 0 → c1 = 1 ∧ c2 = 0) := by
  by_cases hl : has_liked s u p = true
  · -- the edge exists: first call removes it, second re-adds it
    have hmem : (u, p) ∈ s.post_upvotes := by
      simpa [has_liked, List.contains] using hl
    have hcnt : s.post_upvotes.count (u, p) = 1 := by
      have := List.count_pos_iff.mpr hmem
      omega
    have hge : 1 ≤ liked_by_count s p := by
      have := count_le_countP (fun e => e.2 == p) (u, p) (beq_self_eq_true p) s.post_upvotes
      unfold liked_by_count
      omega
    have step1 := upvote_post_liked s u p uo po hu hp hl
    set s1 : Store :=
      { s with
          post_upvotes := s.post_upvotes.filter (fun e => !(e == (u, p))),
          posts := s.posts.map (fun q =>
            if q.id == p then
              { q with upvotes := liked_by_count s p - s.post_upvotes.count (u, p) }
            else q) } with hs1
    have hc1 : liked_by_count s1 p = liked_by_count s p - 1 := by
      have := countP_filter_neq (fun e => e.2 == p) (u, p) (beq_self_eq_true p) s.post_upvotes
      unfold liked_by_count
      rw [hs1]
      simpa [hcnt] using this
    have hl1 : has_liked s1 u p = false := by
      simp [has_liked, List.contains, hs1]
    have hp1 : getPost s1 p
        = some { po with upvotes := liked_by_count s p - s.post_upvotes.count (u, p) } :=
      getPost_map_setUpvotes s.posts p _ po hp
    have step2 := upvote_post_not_liked s1 u p uo _ hu hp1 hl1
    set s2 : Store :=
      { s1 with
          post_upvotes := s1.post_upvotes ++ [(u, p)],
          posts := s1.posts.map (fun q =>
            if q.id == p then { q with upvotes := liked_by_count s1 p + 1 } else q) } with hs2
    have hc2 : liked_by_count s2 p = liked_by_count s p := by
      unfold liked_by_count
      rw [hs2]
      simp only [List.countP_append]
      unfold liked_by_count at hc1 hge
      simp [hc1]
      omega
    have hl2 : has_liked s2 u p = true := by
      simp [has_liked, List.contains, hs2]
    refine ⟨s1, _, s2, _, by rw [hl]; exact step1, by rw [hl]; exact step2,
      hl2.trans hl.symm, hc2, by rw [hc1, hcnt], ?_, ?_, ?_⟩
    · show liked_by_count s1 p + 1 = liked_by_count s2 p
      unfold liked_by_count
      simp [hs2, List.countP_append]
    · intro hcache
      have hp2 : getPost s2 p
          = some { po with upvotes := liked_by_count s1 p + 1 } :=
        getPost_map_setUpvotes s1.posts p (liked_by_count s1 p + 1)
          { po with upvotes := liked_by_count s p - s.post_upvotes.count (u, p) } hp1
      rw [hp2]
      have hval : liked_by_count s1 p + 1 = po.upvotes := by
        rw [hc1, hcache]
        omega
      rw [hval]
    · intro hl0
      rw [hl0] at hl
      cases hl
  · -- no edge yet: first call adds it, second removes it
    have hlf : has_liked s u p = false := by
      simpa using hl
    have hnm : (u, p) ∉ s.post_upvotes := by
      simpa [has_liked, List.contains] using hlf
    have hcnt0 : s.post_upvotes.count (u, p) = 0 := List.count_eq_zero.mpr hnm
    have step1 := upvote_post_not_liked s u p uo po hu hp hlf
    set s1 : Store :=
      { s with
          post_upvotes := s.post_upvotes ++ [(u, p)],
          posts := s.posts.map (fun q =>
            if q.id == p then { q with upvotes := liked_by_count s p + 1 } else q) } with hs1
    have hc1 : liked_by_count s1 p = liked_by_count s p + 1 := by
      unfold liked_by_count
      rw [hs1]
      simp [List.countP_append]
    have hl1 : has_liked s1 u p = true := by
      simp [has_liked, List.contains, hs1]
    have hp1 : getPost s1 p = some { po with upvotes := liked_by_count s p + 1 } :=
      getPost_map_setUpvotes s.posts p _ po hp
    have hcnt1 : s1.post_upvotes.count (u, p) = 1 := by
      rw [hs1]
      simp [List.count_append, hcnt0]
    have step2 := upvote_post_liked s1 u p uo _ hu hp1 hl1
    set s2 : Store :=
      { s1 with
          post_upvotes := s1.post_upvotes.filter (fun e => !(e == (u, p))),
          posts := s1.posts.map (fun q =>
            if q.id == p then
              { q with upvotes := liked_by_count s1 p - s1.post_upvotes.count (u, p) }
            else q) } with hs2
    have hc2 : liked_by_count s2 p = liked_by_count s p := by
      have := countP_filter_neq (fun e => e.2 == p) (u, p) (beq_self_eq_true p) s1.post_upvotes
      unfold liked_by_count
      rw [hs2]
      unfold liked_by_count at hc1
      simp only [hs2] at this ⊢
      rw [this, hcnt1, hc1]
      omega
    have hl2 : has_liked s2 u p = false := by
      simp [has_liked, List.contains, hs2]
    have hfilter := countP_filter_neq (fun e => e.2 == p) (u, p) (beq_self_eq_true p)
      s1.post_upvotes
    refine ⟨s1, _, s2, _, by rw [hlf]; exact step1, by rw [hlf]; exact step2,
      hl2.trans hlf.symm, hc2, hc1.symm, ?_, ?_, ?_⟩
    · show liked_by_count s1 p - s1.post_upvotes.count (u, p) = liked_by_count s2 p
      unfold liked_by_count
      simp only [hs2]
      exact hfilter.symm
    · intro hcache
      have hp2 : getPost s2 p = some
          { po with upvotes := liked_by_count s1 p - s1.post_upvotes.count (u, p) } :=
        getPost_map_setUpvotes s1.posts p
          (liked_by_count s1 p - s1.post_upvotes.count (u, p))
          { po with upvotes := liked_by_count s p + 1 } hp1
      rw [hp2]
      have hval : liked_by_count s1 p - s1.post_upvotes.count (u, p) = po.upvotes := by
        rw [hc1, hcnt1, hcache]
        omega
      rw [hval]
    · intro _ hz
      constructor
      · show liked_by_count s p + 1 = 1
        omega
      · show liked_by_count s1 p - s1.post_upvotes.count (u, p) = 0
        rw [hc1, hcnt1, hz]

/-- C1 (witness): alice on post 1 of the demo store, which starts with no
likes: the calls return `(true, 1)` then `(false, 0)` and the store's like
state is restored. -/
theorem toggle_like_involutive_witness :
    ∃ s1 c1 s2 c2,
      upvote_post demoStore (some 1) 1 = .ok (s1, !(has_liked demoStore 1 1), c1) ∧
      upvote_post s1 (some 1) 1 = .ok (s2, has_liked demoStore 1 1, c2) ∧
      has_liked s2 1 1 = has_liked demoStore 1 1 ∧
      liked_by_count s2 1 = liked_by_count demoStore 1 ∧
      c1 = liked_by_count s1 1 ∧
      c2 = liked_by_count s2 1 ∧
      ((⟨1, "Hello World", "math is fun", 10, 1, 0⟩ : PostR).upvotes
          = liked_by_count demoStore 1 →
        getPost s2 1 = some ⟨1, "Hello World", "math is fun", 10, 1, 0⟩) ∧
      (has_liked demoStore 1 1 = false → liked_by_count demoStore 1 = 0 →
        c1 = 1 ∧ c2 = 0) :=
  toggle_like_involutive demoStore 1 1 ⟨1, "alice"⟩
    ⟨1, "Hello World", "math is fun", 10, 1, 0⟩ (by decide) (by decide) (by decide)

/-- C7 (counterexample): two posts sharing a creation timestamp come back
from the feed in rowid (ascending-id) order — the id-descending tie-break
stated in the claim does not hold. -/
theorem feed_tie_order_counterexample :
    index demoTie none none none none "discover"
      = .ok [⟨1, "A", "a", 5, 1, 0⟩, ⟨2, "B", "b", 5, 1, 0⟩] ∧
    (⟨1, "A", "a", 5, 1, 0⟩ : PostR).datePosted
      = (⟨2, "B", "b", 5, 1, 0⟩ : PostR).datePosted ∧
    (⟨1, "A", "a", 5, 1, 0⟩ : PostR).id < (⟨2, "B", "b", 5, 1, 0⟩ : PostR).id ∧
    ¬ List.Pairwise specFeedOrder
        [(⟨1, "A", "a", 5, 1, 0⟩ : PostR), ⟨2, "B", "b", 5, 1, 0⟩] := by
  decide

/-- C7 (amended): every feed the index route returns — search, tag, topic,
following or discover — is sorted by creation timestamp descending with
ties in ascending id (insertion) order, provided the post table is stored
in ascending-id order as every reachable store is. -/
theorem feed_sorted_date_desc_id_asc (s : Store) (sess : Option Nat)
    (qA tA toA : Option String) (feed : String) (l : List PostR)
    (hid : s.posts.Pairwise (fun a b => a.id < b.id))
    (h : index s sess qA tA toA feed = .ok l) :
    List.Pairwise feedOrder l := by
  unfold index at h
  repeat' split at h
  all_goals
    first
      | exact Except.noConfusion h
      | (injection h with h2
         rw [← h2]
         first
           | exact pairwise_orderByDateDesc _
               (List.Pairwise.sublist (List.filter_sublist s.posts) hid)
           | exact pairwise_orderByDateDesc _ hid)

/-- C7 (witness for the amended theorem): the demo store's discover feed. -/
theorem feed_sorted_date_desc_id_asc_witness :
    List.Pairwise feedOrder
      [(⟨2, "Second", "more CONTENT here", 20, 2, 0⟩ : PostR),
       ⟨1, "Hello World", "math is fun", 10, 1, 0⟩] :=
  feed_sorted_date_desc_id_asc demoStore none none none none "discover"
    [⟨2, "Second", "more CONTENT here", 20, 2, 0⟩,
     ⟨1, "Hello World", "math is fun", 10, 1, 0⟩] (by decide) (by decide)

/-- C8 (counterexample): the search query is spliced into a `LIKE` pattern,
so a `%` inside the query acts as a wildcard: searching `"H%d"` returns the
post titled "Hello World" although neither its title nor its body contains
`"H%d"` as a (case-insensitive) substring. -/
theorem search_wildcard_counterexample :
    index demoStore none (some "H%d") none none "discover"
      = .ok [⟨1, "Hello World", "math is fun", 10, 1, 0⟩] ∧
    containsCI "H%d" "Hello World" = false ∧
    containsCI "H%d" "math is fun" = false ∧
    ¬ occursCI "H%d" "Hello World" ∧
    ¬ occursCI "H%d" "math is fun" := by
  refine ⟨by decide, by decide, by decide, ?_, ?_⟩
  · rw [← containsCI_iff_occursCI]
    decide
  · rw [← containsCI_iff_occursCI]
    decide

/-- C8 (amended): for a non-empty query containing no `LIKE` metacharacter
(`%` or `_`), the search feed holds exactly the posts whose title or body
contains the query as a case-insensitive substring. -/
theorem search_substring_exact (s : Store) (q : String) (sess : Option Nat)
    (tA toA : Option String) (feed : String) (l : List PostR) (p : PostR)
    (hq : noWildL q.data = true) (hqe : q ≠ "")
    (h : index s sess (some q) tA toA feed = .ok l) :
    p ∈ l ↔ p ∈ s.posts ∧ (occursCI q p.title ∨ occursCI q p.content) := by
  have hav : argVal (some q) = some q := by
    unfold argVal
    split
    · next heq =>
        injection heq with heq
        exact absurd heq hqe
    · rfl
  unfold index at h
  simp only [hav] at h
  injection h with h2
  rw [← h2, mem_orderByDateDesc, List.mem_filter]
  simp only [Bool.or_eq_true, ilikeSub_eq_containsCI _ _ hq, containsCI_iff_occursCI]

/-- C8 (witness for the amended theorem): searching "world" in the demo
store returns exactly the post whose title contains it. -/
theorem search_substring_exact_witness :
    (⟨1, "Hello World", "math is fun", 10, 1, 0⟩ : PostR)
        ∈ [(⟨1, "Hello World", "math is fun", 10, 1, 0⟩ : PostR)] ↔
      (⟨1, "Hello World", "math is fun", 10, 1, 0⟩ : PostR) ∈ demoStore.posts ∧
      (occursCI "world" "Hello World" ∨ occursCI "world" "math is fun") :=
  search_substring_exact demoStore "world" none none none "discover"
    [⟨1, "Hello World", "math is fun", 10, 1, 0⟩]
    ⟨1, "Hello World", "math is fun", 10, 1, 0⟩
    (by decide) (by decide) (by decide)

/-- C10: the comment branch of the post-detail route attributes every new
comment to `get_default_user()` — the first user of the identity store, or
a freshly created `faculty_admin` user when the store is empty — and never
to the acting session user, so any signed-in actor other than the store's
first user differs from the recorded author. -/
theorem comment_author_is_first_user (s : Store) (pid : Nat) (body : String)
    (s' : Store) (c : CommentR)
    (h : post_detail_comment s pid body = .ok (s', c)) :
    c.userId = (get_default_user s).2.id ∧
    (∀ u0, s.users.head? = some u0 → c.userId = u0.id) ∧
    (∀ a u, getUser s a = some u → (∀ u0, s.users.head? = some u0 → a ≠ u0.id) →
        c.userId ≠ a) ∧
    (s.users = [] → (get_default_user s).2.username = "faculty_admin") := by
  have hc : c.userId = (get_default_user s).2.id := by
    cases hp : getPost s pid with
    | none => simp [post_detail_comment, hp] at h
    | some po =>
        by_cases hb : pyStrip body = ""
        · simp [post_detail_comment, hp, hb] at h
        · simp only [post_detail_comment, hp, hb, ite_false, Except.ok.injEq,
            Prod.mk.injEq, if_neg] at h
          rw [← h.2]
  refine ⟨hc, ?_, ?_, ?_⟩
  · intro u0 h0
    rw [hc]
    simp [get_default_user, h0]
  · intro a u hau hne
    cases hu : s.users.head? with
    | none =>
        exfalso
        have : s.users = [] := List.head?_eq_none_iff.mp hu
        rw [getUser, this] at hau
        simp at hau
    | some u0 =>
        rw [hc]
        simp [get_default_user, hu]
        exact fun he => (hne u0 hu) he.symm
  · intro hnil
    simp [get_default_user, hnil]

/-- C10 (witness): alice comments on post 2 of the demo store while signed
in as bob would be; the recorded author is user 1 (the first user), not
user 2. -/
theorem comment_author_is_first_user_witness :
    (⟨1, "great", 1, 2⟩ : CommentR).userId = (get_default_user demoStore).2.id ∧
    (⟨1, "great", 1, 2⟩ : CommentR).userId ≠ 2 := by
  have h := comment_author_is_first_user demoStore 2 "great"
    (applyOp demoStore (.comment 2 "great")) ⟨1, "great", 1, 2⟩ (by decide)
  exact ⟨h.1, h.2.2.1 2 ⟨2, "bob"⟩ (by decide) (fun u0 h0 => by
    rw [show demoStore.users.head? = some ⟨1, "alice"⟩ from by decide] at h0
    cases h0
    decide)⟩

end Blog
